import Mathlib

/-!
# Verification of the rss-digest relevance ranking engine

A shallow embedding of `src/ranker.py` (`ArticleRanker`): keyword
normalization, the word-boundary / substring keyword matcher, exclusion
checking, article scoring, and the `rank_articles` selection, together
with theorems settling the specification claims about them.

Text is embedded as `List Char`; the Python `str.lower` / `str.strip`
methods are modelled with `Char.toLower` / `Char.isWhitespace` (the
keywords and article fields of the repository are ASCII).  A Python
`re.search` of the pattern `\b<escaped keyword>\b` is modelled by
`reSearchWord`, where a word boundary holds between two positions
exactly when the word-char status of the adjacent characters differs
(out of bounds counts as non-word, as in `re`).  The Python `in`
substring test is `containsSubstr` (the empty needle is contained in
every string, as in Python).
-/

/-- Article text, embedded as a list of characters. -/
abbrev Str := List Char

/-- Python `str.lower` (ASCII). -/
def strLower (s : Str) : Str := s.map Char.toLower

/-- Python `str.strip`: drop leading and trailing whitespace. -/
def strStrip (s : Str) : Str :=
  ((s.dropWhile Char.isWhitespace).reverse.dropWhile Char.isWhitespace).reverse

/-- The body of `ArticleRanker._normalize_keywords` applied to one
keyword: `kw.lower().strip()`. -/
def normalizeKeyword (kw : Str) : Str := strStrip (strLower kw)

/-- `ArticleRanker._normalize_keywords`: lowercase, strip, and collect
into a set (embedded as a deduplicated list). -/
def normalize_keywords (kws : List Str) : List Str :=
  (kws.map normalizeKeyword).dedup

/-- Regex word character `\w` (ASCII): letters, digits, underscore. -/
def isWordChar (c : Char) : Bool := c.isAlphanum || c == '_'

/-- Word-char status of an optional character; out of bounds is non-word. -/
def isWordCharOpt : Option Char → Bool
  | none => false
  | some c => isWordChar c

/-- A regex `\b` word boundary holds between two adjacent positions
exactly when their word-char statuses differ. -/
def boundaryB (prev next : Option Char) : Bool :=
  isWordCharOpt prev != isWordCharOpt next

/-- Success of `re.search` at the current position: `kw` is a prefix of
the remaining text `rest`, with a word boundary before it (`prev` is
the character just before the position) and after it. -/
def matchesHere (kw : Str) (prev : Option Char) (rest : Str) : Bool :=
  kw.isPrefixOf rest && boundaryB prev rest.head? &&
    boundaryB (if kw.isEmpty then prev else kw.getLast?) (rest.drop kw.length).head?

/-- Scan of `re.search`: try every position of the text (including the
position past the last character), tracking the previous character. -/
def wordSearchAux (kw : Str) : Option Char → Str → Bool
  | prev, [] => matchesHere kw prev []
  | prev, c :: rest => matchesHere kw prev (c :: rest) || wordSearchAux kw (some c) rest

/-- Truth of `re.search(r'\b' + re.escape(kw) + r'\b', text) is not None`. -/
def reSearchWord (kw text : Str) : Bool := wordSearchAux kw none text

/-- The Python `needle in text` substring containment. -/
def containsSubstr (needle : Str) : Str → Bool
  | [] => needle.isEmpty
  | c :: rest => needle.isPrefixOf (c :: rest) || containsSubstr needle rest

/-- The per-keyword test inside `ArticleRanker._count_keyword_matches`:
multi-word phrases (containing a space) use substring matching, single
words use word-boundary matching. -/
def keywordHits (kw text : Str) : Bool :=
  if kw.contains ' ' then containsSubstr kw text else reSearchWord kw text

/-- `ArticleRanker._count_keyword_matches`: how many keywords of the set
appear in the text — at most one count per keyword. -/
def count_keyword_matches (text : Str) (keywords : List Str) : Nat :=
  (keywords.filter (fun kw => keywordHits kw text)).length

/-- An article record.  Text fields default to the empty string, as
`article.get(field, ...)` does; `pre_rank_position` models the value of
`article.get('pre_rank_position')`, absent = `None`. -/
structure Article where
  title : Str := []
  summary : Str := []
  ai_summary : Str := []
  source : Str := []
  link : Str := []
  pre_rank_position : Option Nat := none
  deriving DecidableEq

/-- The `ArticleRanker` state after `__init__`: the four keyword sets,
already normalized.  The tier weights (10/5/2) and the score cap (100)
are fixed constants of the class and appear inline in `score_article`. -/
structure ArticleRanker where
  high_priority : List Str
  medium_priority : List Str
  low_priority : List Str
  exclusions : List Str
  deriving DecidableEq

/-- `ArticleRanker.__init__`: normalize all four keyword lists. -/
def mkRanker (hi med lo ex : List Str) : ArticleRanker :=
  { high_priority := normalize_keywords hi
    medium_priority := normalize_keywords med
    low_priority := normalize_keywords lo
    exclusions := normalize_keywords ex }

/-- `ArticleRanker._get_searchable_text`: join title, summary,
ai_summary and source with spaces, lowercased. -/
def get_searchable_text (a : Article) : Str :=
  strLower (a.title ++ ' ' :: (a.summary ++ ' ' :: (a.ai_summary ++ ' ' :: a.source)))

/-- `ArticleRanker._check_exclusions`: `True` iff any exclusion keyword
is a substring of the text. -/
def check_exclusions (r : ArticleRanker) (text : Str) : Bool :=
  r.exclusions.any (fun e => containsSubstr e text)

/-- `ArticleRanker.score_article`: 0 when an exclusion keyword is
present, otherwise the tier-weighted match count capped at 100. -/
def score_article (r : ArticleRanker) (a : Article) : Int :=
  let text := get_searchable_text a
  if check_exclusions r text then 0
  else
    let raw : Int :=
      (count_keyword_matches text r.high_priority : Int) * 10 +
      (count_keyword_matches text r.medium_priority : Int) * 5 +
      (count_keyword_matches text r.low_priority : Int) * 2
    min raw 100

/-- An article as it appears in the `rank_articles` output: the
(unchanged) article together with the `relevance_score` decoration and
whether the protected flag was set on it. -/
structure RankedArticle where
  article : Article
  relevance_score : Int
  isProtected : Bool
  deriving DecidableEq

/-- The Python truthiness test `if pre_rank and pre_rank <=
protected_count` (`None` and `0` are falsy). -/
def isProtectedPos (pre : Option Nat) (protected_count : Nat) : Bool :=
  match pre with
  | none => false
  | some p => p != 0 && decide (p ≤ protected_count)

/-- The pre-rank bonus actually added by `rank_articles`: only when
`pre_rank_position` is truthy and `prerank_bonus_max > 0`, and then
equal to `max(0, prerank_bonus_max - pre_rank + 1)`. -/
def bonusFor (prerank_bonus_max : Int) (pre : Option Nat) : Int :=
  match pre with
  | none => 0
  | some p =>
    if p ≠ 0 ∧ 0 < prerank_bonus_max then max 0 (prerank_bonus_max - (p : Int) + 1)
    else 0

/-- One iteration of the `for article in articles` loop of
`rank_articles`: `none` when the article is dropped (score 0, or
unprotected below `min_score`); otherwise the decorated article tagged
with whether it went to the protected list (`true`) or the scored list
(`false`). -/
def rankStep (r : ArticleRanker) (min_score : Int) (protected_count : Nat)
    (prerank_bonus_max : Int) (a : Article) : Option (Bool × RankedArticle) :=
  let score0 := score_article r a
  if score0 = 0 then none
  else
    let score1 := score0 + bonusFor prerank_bonus_max a.pre_rank_position
    if isProtectedPos a.pre_rank_position protected_count then
      some (true, { article := a, relevance_score := max score1 100, isProtected := true })
    else if min_score ≤ score1 then
      some (false, { article := a, relevance_score := score1, isProtected := false })
    else none

/-- Descending order on `relevance_score`, the key of the final
`all_scored.sort(key=..., reverse=True)` call. -/
def scoreGE (x y : RankedArticle) : Prop := y.relevance_score ≤ x.relevance_score

instance : DecidableRel scoreGE := fun _ _ => inferInstanceAs (Decidable (_ ≤ _))

instance : IsTotal RankedArticle scoreGE :=
  ⟨fun x y => le_total y.relevance_score x.relevance_score⟩

instance : IsTrans RankedArticle scoreGE :=
  ⟨fun _ _ _ h1 h2 => le_trans h2 h1⟩

/-- `ArticleRanker.rank_articles`: score every article, drop score-0
ones, apply the pre-rank bonus, split into the protected and scored
lists, concatenate protected-first, stable-sort descending by
`relevance_score`, and truncate to `top_n`.  The stable Python
`list.sort` is embedded as `List.insertionSort` with the total preorder
`scoreGE`, which is the stable descending sort. -/
def rank_articles (r : ArticleRanker) (articles : List Article) (top_n : Nat)
    (min_score : Int) (protected_count : Nat) (prerank_bonus_max : Int) :
    List RankedArticle :=
  let processed := articles.filterMap (rankStep r min_score protected_count prerank_bonus_max)
  let protectedArts := (processed.filter (fun x => x.1)).map (fun x => x.2)
  let scoredArts := (processed.filter (fun x => !x.1)).map (fun x => x.2)
  let allScored := protectedArts ++ scoredArts
  (allScored.insertionSort scoreGE).take top_n

/-! ## Concrete fixtures

Small rankers and articles used by the witness and counterexample
theorems below.  Keyword and text content follows the test articles at
the bottom of `ranker.py`. -/

/-- Ranker with one high keyword and one exclusion. -/
def exR : ArticleRanker := mkRanker ["kettlebell".data] [] [] ["nfl".data]

/-- An article whose text contains both the exclusion and a scoring
keyword, carrying a protected pre-rank position. -/
def exArt : Article :=
  { title := "NFL week 1 and kettlebell tips".data, link := "b".data,
    pre_rank_position := some 1 }

/-- Ranker with eleven high-priority keywords (11 * 10 = 110 > 100). -/
def capR : ArticleRanker :=
  mkRanker ["aa".data, "bb".data, "cc".data, "dd".data, "ee".data, "ff".data,
    "gg".data, "hh".data, "ii".data, "jj".data, "kk".data] [] [] []

/-- An article matching all eleven keywords of `capR`. -/
def capArt : Article := { title := "aa bb cc dd ee ff gg hh ii jj kk".data }

/-- Ranker with the single high keyword aa and no exclusions. -/
def protR : ArticleRanker := mkRanker ["aa".data] [] [] []

/-- Protected article at pre-rank position 1. -/
def protArt1 : Article :=
  { title := "aa one".data, link := "l1".data, pre_rank_position := some 1 }

/-- Protected article at pre-rank position 2. -/
def protArt2 : Article :=
  { title := "aa two".data, link := "l2".data, pre_rank_position := some 2 }

/-- Ranker with ten high-priority keywords (10 * 10 = 100). -/
def bigR : ArticleRanker :=
  mkRanker ["aa".data, "bb".data, "cc".data, "dd".data, "ee".data, "ff".data,
    "gg".data, "hh".data, "ii".data, "jj".data] [] [] []

/-- An article matching all ten keywords of `bigR`, at the unprotected
pre-rank position 2: raw score 100 plus bonus 4 gives 104. -/
def bonusedArt : Article :=
  { title := "aa bb cc dd ee ff gg hh ii jj".data, pre_rank_position := some 2 }

/-- An article matching one keyword of `bigR`, at the protected
pre-rank position 1: floored to score 100. -/
def protSmall : Article := { title := "aa one".data, pre_rank_position := some 1 }

/-- Two distinct articles sharing one link. -/
def dupArt1 : Article := { title := "aa x".data, link := "L".data }

/-- Second article with the same link as `dupArt1`. -/
def dupArt2 : Article := { title := "aa y".data, link := "L".data }

/-- First of two articles with equal scores. -/
def tieX : Article := { title := "aa x".data }

/-- Second of two articles with equal scores. -/
def tieY : Article := { title := "aa y".data }

/-- Ranker whose high-priority tier contains the empty keyword. -/
def emptyKwR : ArticleRanker := mkRanker ["".data] [] [] []

/-- Ranker whose exclusion set contains the empty keyword. -/
def emptyExR : ArticleRanker := mkRanker ["kettlebell".data] [] [] ["".data]

/-- Same ranker without the empty exclusion. -/
def noExR : ArticleRanker := mkRanker ["kettlebell".data] [] [] []

/-- A plain article matching the kettlebell keyword. -/
def kbArt : Article := { title := "Kettlebell workout".data, link := "a".data }

/-- An article with a word character but no configured keyword. -/
def helloArt : Article := { title := "hello".data }

/-- A non-excluded article matching no keyword at all (score 0). -/
def zeroArt : Article := { title := "hello world".data }

/-! ## Helper lemmas -/

/-- The score of an article is never negative. -/
theorem score_article_nonneg (r : ArticleRanker) (a : Article) :
    0 ≤ score_article r a := by
  simp only [score_article]
  split
  · exact le_refl 0
  · refine le_min ?_ (by norm_num)
    positivity

/-- The score of an article never exceeds the cap 100. -/
theorem score_article_le (r : ArticleRanker) (a : Article) :
    score_article r a ≤ 100 := by
  simp only [score_article]
  split
  · norm_num
  · exact min_le_right _ _

/-- The bonus vanishes when `prerank_bonus_max` is 0, as the code
guards the bonus block with `prerank_bonus_max > 0`. -/
theorem bonusFor_zero (pre : Option Nat) : bonusFor 0 pre = 0 := by
  cases pre with
  | none => rfl
  | some p => simp [bonusFor]

/-- For a 1-based position, the effective bonus is exactly
`max 0 (prerank_bonus_max - p + 1)`, whether or not the
`prerank_bonus_max > 0` guard fires. -/
theorem bonusFor_eq_of_pos {bm : Int} {p : Nat} (hp : 1 ≤ p) :
    bonusFor bm (some p) = max 0 (bm - (p : Int) + 1) := by
  have hp0 : p ≠ 0 := by omega
  have hpi : (1 : Int) ≤ (p : Int) := by exact_mod_cast hp
  by_cases hbm : 0 < bm
  · simp [bonusFor, hp0, hbm]
  · simp only [bonusFor, hp0, hbm, and_false, if_false, ne_eq, not_false_iff, true_and,
      if_neg hbm]
    omega

/-- Any successful `rankStep` keeps the article unchanged, comes from a
nonzero score, and tags the pair with the protected flag of the
produced article. -/
theorem rankStep_eq_some {r : ArticleRanker} {ms : Int} {pc : Nat} {bm : Int}
    {a : Article} {b : Bool} {ra : RankedArticle}
    (h : rankStep r ms pc bm a = some (b, ra)) :
    ra.article = a ∧ score_article r a ≠ 0 ∧ ra.isProtected = b := by
  simp only [rankStep] at h
  split at h
  · exact absurd h (by simp)
  · split at h
    · obtain ⟨hb, hra⟩ := Prod.mk.injEq .. ▸ Option.some.injEq .. ▸ h
      exact ⟨by rw [← hra], by assumption, by rw [← hra, ← hb]⟩
    · split at h
      · obtain ⟨hb, hra⟩ := Prod.mk.injEq .. ▸ Option.some.injEq .. ▸ h
        exact ⟨by rw [← hra], by assumption, by rw [← hra, ← hb]⟩
      · exact absurd h (by simp)

/-- Every element of the `rank_articles` output is produced by a
successful `rankStep` on some input article. -/
theorem mem_rank_articles {r : ArticleRanker} {arts : List Article} {n : Nat}
    {ms : Int} {pc : Nat} {bm : Int} {ra : RankedArticle}
    (h : ra ∈ rank_articles r arts n ms pc bm) :
    ∃ a ∈ arts, ∃ b, rankStep r ms pc bm a = some (b, ra) := by
  simp only [rank_articles] at h
  have h2 := List.mem_of_mem_take h
  rw [List.mem_insertionSort] at h2
  rcases List.mem_append.mp h2 with h3 | h3 <;>
  · obtain ⟨x, hx, hxe⟩ := List.mem_map.mp h3
    have hproc := List.mem_of_mem_filter hx
    obtain ⟨a, ha, hstep⟩ := List.mem_filterMap.mp hproc
    exact ⟨a, ha, x.1, by rw [hstep, ← hxe]⟩

/-- A `rankStep` landing in the scored (non-protected) list records
exactly the bonused score. -/
theorem rankStep_false_eq {r : ArticleRanker} {ms : Int} {pc : Nat} {bm : Int}
    {a : Article} {ra : RankedArticle}
    (h : rankStep r ms pc bm a = some (false, ra)) :
    ra = { article := a,
           relevance_score := score_article r a + bonusFor bm a.pre_rank_position,
           isProtected := false } := by
  simp only [rankStep] at h
  split at h
  · exact absurd h (by simp)
  · split at h
    · obtain ⟨hb, _⟩ := Prod.mk.injEq .. ▸ Option.some.injEq .. ▸ h
      exact absurd hb.symm (by simp)
    · split at h
      · obtain ⟨_, hra⟩ := Prod.mk.injEq .. ▸ Option.some.injEq .. ▸ h
        exact hra.symm
      · exact absurd h (by simp)

/-- A `rankStep` landing in the protected list records the bonused
score floored at 100. -/
theorem rankStep_true_eq {r : ArticleRanker} {ms : Int} {pc : Nat} {bm : Int}
    {a : Article} {ra : RankedArticle}
    (h : rankStep r ms pc bm a = some (true, ra)) :
    ra = { article := a,
           relevance_score :=
             max (score_article r a + bonusFor bm a.pre_rank_position) 100,
           isProtected := true } := by
  simp only [rankStep] at h
  split at h
  · exact absurd h (by simp)
  · split at h
    · obtain ⟨_, hra⟩ := Prod.mk.injEq .. ▸ Option.some.injEq .. ▸ h
      exact hra.symm
    · split at h
      · obtain ⟨hb, _⟩ := Prod.mk.injEq .. ▸ Option.some.injEq .. ▸ h
        exact absurd hb.symm (by simp)
      · exact absurd h (by simp)

/-- With `protected_count = 0` nothing is protected: the truthiness
test `pre_rank and pre_rank <= 0` always fails. -/
theorem isProtectedPos_zero (pre : Option Nat) : isProtectedPos pre 0 = false := by
  cases pre with
  | none => rfl
  | some p => cases p <;> simp [isProtectedPos]

/-- A protected, non-excluded article passes `rankStep` into the
protected list no matter what `min_score` is. -/
theorem rankStep_protected {r : ArticleRanker} {ms : Int} {pc : Nat} {bm : Int}
    {a : Article} {p : Nat} (hnz : score_article r a ≠ 0)
    (hpre : a.pre_rank_position = some p) (hp0 : p ≠ 0) (hppc : p ≤ pc) :
    rankStep r ms pc bm a =
      some (true,
        { article := a,
          relevance_score :=
            max (score_article r a + bonusFor bm a.pre_rank_position) 100,
          isProtected := true }) := by
  simp only [rankStep, if_neg hnz]
  rw [if_pos]
  rw [hpre]
  simp [isProtectedPos, hp0, hppc]

/-- Inserting an element that dominates the whole list places it at the
front. -/
theorem orderedInsert_eq_cons {x : RankedArticle} {l : List RankedArticle}
    (h : ∀ y ∈ l, scoreGE x y) : l.orderedInsert scoreGE x = x :: l := by
  cases l with
  | nil => rfl
  | cons b t =>
    simp only [List.orderedInsert]
    rw [if_pos (h b (List.mem_cons_self b t))]

/-- Sorting a concatenation whose left part dominates everything leaves
the left part in place and in order: this is the stability of the final
sort on the protected prefix. -/
theorem insertionSort_append_left {B : List RankedArticle} :
    ∀ {A : List RankedArticle}, (∀ x ∈ A, ∀ y ∈ A ++ B, scoreGE x y) →
      (A ++ B).insertionSort scoreGE = A ++ B.insertionSort scoreGE := by
  intro A
  induction A with
  | nil => intro _; rfl
  | cons a A' ih =>
    intro h
    have h' : ∀ x ∈ A', ∀ y ∈ A' ++ B, scoreGE x y := by
      intro x hx y hy
      refine h x (List.mem_cons_of_mem a hx) y ?_
      rcases List.mem_append.mp hy with hl | hr
      · exact List.mem_append.mpr (Or.inl (List.mem_cons_of_mem a hl))
      · exact List.mem_append.mpr (Or.inr hr)
    rw [List.cons_append]
    show (List.insertionSort scoreGE (a :: (A' ++ B))) = a :: A' ++ B.insertionSort scoreGE
    simp only [List.insertionSort]
    rw [ih h']
    apply orderedInsert_eq_cons
    intro y hy
    rcases List.mem_append.mp hy with hl | hr
    · exact h a (List.mem_cons_self a A') y
        (List.mem_append.mpr (Or.inl (List.mem_cons_of_mem a hl)))
    · exact h a (List.mem_cons_self a A') y
        (List.mem_append.mpr (Or.inr ((List.mem_insertionSort scoreGE).mp hr)))

/-- The empty keyword as a substring needle: it is contained in every
text, so an empty exclusion keyword excludes every article. -/
theorem containsSubstr_nil (text : Str) : containsSubstr [] text = true := by
  cases text <;> rfl

/-- The empty keyword under the word-boundary search (regex pattern
consisting of two adjacent boundary assertions) matches exactly the
texts that contain at least one word character. -/
theorem wordSearchAux_nil (prev : Option Char) (text : Str) :
    wordSearchAux [] prev text = (isWordCharOpt prev || text.any isWordChar) := by
  induction text generalizing prev with
  | nil =>
    show matchesHere [] prev [] = (isWordCharOpt prev || List.any [] isWordChar)
    have e : matchesHere [] prev [] =
        ((isWordCharOpt prev != false) && (isWordCharOpt prev != false)) := rfl
    rw [e, List.any_nil]
    cases h : isWordCharOpt prev <;> rfl
  | cons c rest ih =>
    show (matchesHere [] prev (c :: rest) || wordSearchAux [] (some c) rest) =
      (isWordCharOpt prev || (c :: rest).any isWordChar)
    have e2 : matchesHere [] prev (c :: rest) =
        ((isWordCharOpt prev != isWordChar c) && (isWordCharOpt prev != isWordChar c)) := rfl
    rw [e2, ih (some c), List.any_cons]
    have e3 : isWordCharOpt (some c) = isWordChar c := rfl
    rw [e3]
    cases isWordCharOpt prev <;> cases isWordChar c <;> cases rest.any isWordChar <;> rfl

/-- The underlying articles of the processed list form a subsequence of
the input list: `rank_articles` neither invents nor duplicates any
article entry. -/
theorem filterMap_rankStep_sublist (r : ArticleRanker) (ms : Int) (pc : Nat) (bm : Int)
    (articles : List Article) :
    List.Sublist ((articles.filterMap (rankStep r ms pc bm)).map (fun x => x.2.article))
      articles := by
  induction articles with
  | nil => simp
  | cons a as ih =>
    rw [List.filterMap_cons]
    cases hstep : rankStep r ms pc bm a with
    | none => exact ih.cons a
    | some x =>
      rw [List.map_cons]
      have hx : x.2.article = a := by
        have hs : rankStep r ms pc bm a = some (x.1, x.2) := by rw [hstep]
        exact (rankStep_eq_some hs).1
      rw [hx]
      exact ih.cons₂ a

/-! ## Claim theorems -/

/-- C1.  Exclusion dominance: an article whose searchable text surface
contains a configured exclusion keyword scores exactly 0, and no output
of `rank_articles` — for any parameter combination, so in both the
pre-rank and the final-rank pass, and even when its pre-rank position
is within `protected_count` — contains that article. -/
theorem C1_exclusion_dominance (r : ArticleRanker) (a : Article)
    (h : check_exclusions r (get_searchable_text a) = true) :
    score_article r a = 0 ∧
    ∀ (articles : List Article) (top_n : Nat) (min_score : Int)
      (protected_count : Nat) (prerank_bonus_max : Int),
      ∀ ra ∈ rank_articles r articles top_n min_score protected_count prerank_bonus_max,
        ra.article ≠ a := by
  have hs : score_article r a = 0 := by
    simp only [score_article]
    rw [if_pos h]
  refine ⟨hs, ?_⟩
  intro arts n ms pc bm ra hmem heq
  obtain ⟨a2, _, b, hstep⟩ := mem_rank_articles hmem
  obtain ⟨hart, hnz, _⟩ := rankStep_eq_some hstep
  rw [heq] at hart
  rw [hart] at hs
  exact hnz hs

/-- Witness for C1 at a concrete excluded, protected article. -/
theorem C1_witness :
    check_exclusions exR (get_searchable_text exArt) = true ∧
    score_article exR exArt = 0 :=
  ⟨by decide, (C1_exclusion_dominance exR exArt (by decide)).1⟩

/-- C2 counterexample.  Two non-excluded protected articles but
`top_n = 1`: the claim says both appear (protection overrides the
`top_n` cap), yet the output truncates to the single highest-score
entry and the protected article at position 2 is silently dropped. -/
theorem C2_counterexample :
    score_article protR protArt2 = 10 ∧
    isProtectedPos protArt2.pre_rank_position 2 = true ∧
    rank_articles protR [protArt1, protArt2] 1 1 2 0 =
      [{ article := protArt1, relevance_score := 100, isProtected := true }] := by
  refine ⟨by decide, by decide, by decide⟩

/-- C2 amended.  A non-excluded article with a truthy
`pre_rank_position` within `protected_count` is placed on the protected
list regardless of `min_score`, and appears in the final output
whenever `top_n` is at least the total number of retained articles; the
`top_n` truncation is still applied after the merge, so protection does
not override the cap. -/
theorem C2_protection_amended (r : ArticleRanker) (articles : List Article)
    (top_n : Nat) (min_score : Int) (protected_count : Nat) (prerank_bonus_max : Int)
    (a : Article) (p : Nat)
    (ha : a ∈ articles) (hnz : score_article r a ≠ 0)
    (hpre : a.pre_rank_position = some p) (hp0 : p ≠ 0) (hppc : p ≤ protected_count)
    (hn : (articles.filterMap
      (rankStep r min_score protected_count prerank_bonus_max)).length ≤ top_n) :
    (rank_articles r articles top_n min_score protected_count prerank_bonus_max).any
      (fun ra => decide (ra.article = a) && ra.isProtected) = true := by
  have hstep := @rankStep_protected r min_score protected_count prerank_bonus_max
    a p hnz hpre hp0 hppc
  set ra : RankedArticle :=
    { article := a,
      relevance_score :=
        max (score_article r a + bonusFor prerank_bonus_max a.pre_rank_position) 100,
      isProtected := true } with hra
  have hproc : (true, ra) ∈
      articles.filterMap (rankStep r min_score protected_count prerank_bonus_max) :=
    List.mem_filterMap.mpr ⟨a, ha, hstep⟩
  have hprot : ra ∈ (List.filter (fun x => x.1)
      (articles.filterMap (rankStep r min_score protected_count prerank_bonus_max))).map
      (fun x => x.2) :=
    List.mem_map.mpr ⟨(true, ra), List.mem_filter.mpr ⟨hproc, rfl⟩, rfl⟩
  simp only [rank_articles]
  have hall : ra ∈ (List.filter (fun x => x.1)
        (articles.filterMap (rankStep r min_score protected_count prerank_bonus_max))).map
        (fun x => x.2) ++
      (List.filter (fun x => !x.1)
        (articles.filterMap (rankStep r min_score protected_count prerank_bonus_max))).map
        (fun x => x.2) :=
    List.mem_append.mpr (Or.inl hprot)
  have hlen : ((List.filter (fun x => x.1)
        (articles.filterMap (rankStep r min_score protected_count prerank_bonus_max))).map
        (fun x => x.2) ++
      (List.filter (fun x => !x.1)
        (articles.filterMap (rankStep r min_score protected_count prerank_bonus_max))).map
        (fun x => x.2)).length ≤ top_n := by
    rw [List.length_append, List.length_map, List.length_map]
    have hperm := (List.filter_append_perm (fun x => x.1)
      (articles.filterMap (rankStep r min_score protected_count prerank_bonus_max))).length_eq
    rw [List.length_append] at hperm
    omega
  rw [List.take_of_length_le (by rw [List.length_insertionSort]; exact hlen)]
  refine List.any_eq_true.mpr ⟨ra, ?_, ?_⟩
  · exact (List.mem_insertionSort scoreGE).mpr hall
  · simp [hra]

/-- Witness for C2 at a concrete protected article with a generous
`top_n`. -/
theorem C2_witness :
    (rank_articles protR [protArt1] 5 1 1 0).any
      (fun ra => decide (ra.article = protArt1) && ra.isProtected) = true :=
  C2_protection_amended protR [protArt1] 5 1 1 0 protArt1 1
    (by decide) (by decide) rfl (by decide) (by decide) (by decide)

/-- C3 counterexample.  Eleven distinct matched high-priority keywords
give a weighted sum of 110, but `score_article` returns 100: the cap is
present in the code, contradicting the claim that no upper cap is
imposed. -/
theorem C3_counterexample :
    check_exclusions capR (get_searchable_text capArt) = false ∧
    (count_keyword_matches (get_searchable_text capArt) capR.high_priority : Int) * 10 +
      (count_keyword_matches (get_searchable_text capArt) capR.medium_priority : Int) * 5 +
      (count_keyword_matches (get_searchable_text capArt) capR.low_priority : Int) * 2
      = 110 ∧
    score_article capR capArt = 100 := by
  refine ⟨by decide, by decide, by decide⟩

/-- C3 amended.  For a non-excluded article the score is the
tier-weighted sum of distinct keyword matches, capped at
`max_score = 100`: a weighted sum above 100 is reported as 100. -/
theorem C3_capped_score (r : ArticleRanker) (a : Article)
    (h : check_exclusions r (get_searchable_text a) = false) :
    score_article r a =
      min ((count_keyword_matches (get_searchable_text a) r.high_priority : Int) * 10 +
           (count_keyword_matches (get_searchable_text a) r.medium_priority : Int) * 5 +
           (count_keyword_matches (get_searchable_text a) r.low_priority : Int) * 2) 100 := by
  simp only [score_article]
  rw [if_neg (by rw [h]; exact Bool.false_ne_true)]

/-- Witness for C3 at the eleven-keyword article: the capped value. -/
theorem C3_witness : score_article capR capArt = min (110 : Int) 100 :=
  (C3_capped_score capR capArt (by decide)).trans (by decide)

/-- C4 counterexample.  Two distinct non-excluded articles sharing one
link both appear in the `rank_articles` output: the function performs
no deduplication by link. -/
theorem C4_counterexample :
    dupArt1.link = dupArt2.link ∧ dupArt1 ≠ dupArt2 ∧
    rank_articles protR [dupArt1, dupArt2] 20 1 0 0 =
      [{ article := dupArt1, relevance_score := 10, isProtected := false },
       { article := dupArt2, relevance_score := 10, isProtected := false }] := by
  refine ⟨by decide, by decide, by decide⟩

/-- C4 amended.  `rank_articles` does not deduplicate by link; since
every output entry carries one distinct input article, the output links
are pairwise distinct exactly when the input links already are. -/
theorem C4_links_nodup (r : ArticleRanker) (articles : List Article) (top_n : Nat)
    (min_score : Int) (protected_count : Nat) (prerank_bonus_max : Int)
    (h : (articles.map Article.link).Nodup) :
    ((rank_articles r articles top_n min_score protected_count prerank_bonus_max).map
      (fun ra => ra.article.link)).Nodup := by
  have hnodup_proc : ((articles.filterMap
      (rankStep r min_score protected_count prerank_bonus_max)).map
      (fun x => x.2.article.link)).Nodup := by
    have h1 := (filterMap_rankStep_sublist r min_score protected_count
      prerank_bonus_max articles).map Article.link
    rw [List.map_map] at h1
    exact h.sublist h1
  have hperm : List.Perm
      (((List.filter (fun x => x.1) (articles.filterMap
          (rankStep r min_score protected_count prerank_bonus_max))).map (fun x => x.2) ++
        (List.filter (fun x => !x.1) (articles.filterMap
          (rankStep r min_score protected_count prerank_bonus_max))).map (fun x => x.2)).map
        (fun ra => ra.article.link))
      ((articles.filterMap (rankStep r min_score protected_count prerank_bonus_max)).map
        (fun x => x.2.article.link)) := by
    rw [← List.map_append, List.map_map]
    exact (List.filter_append_perm (fun x : Bool × RankedArticle => x.1)
      (articles.filterMap (rankStep r min_score protected_count prerank_bonus_max))).map _
  have hnodup_all := hperm.nodup_iff.mpr hnodup_proc
  have hperm2 := ((List.perm_insertionSort scoreGE
      ((List.filter (fun x => x.1) (articles.filterMap
        (rankStep r min_score protected_count prerank_bonus_max))).map (fun x => x.2) ++
       (List.filter (fun x => !x.1) (articles.filterMap
        (rankStep r min_score protected_count prerank_bonus_max))).map (fun x => x.2)))).map
      (fun ra => ra.article.link)
  have hnodup_sorted := hperm2.nodup_iff.mpr hnodup_all
  have hsub2 := (List.take_sublist top_n (List.insertionSort scoreGE
      ((List.filter (fun x => x.1) (articles.filterMap
        (rankStep r min_score protected_count prerank_bonus_max))).map (fun x => x.2) ++
       (List.filter (fun x => !x.1) (articles.filterMap
        (rankStep r min_score protected_count prerank_bonus_max))).map (fun x => x.2)))).map
      (fun ra => ra.article.link)
  exact hnodup_sorted.sublist hsub2

/-- Witness for C4 at two articles with distinct links. -/
theorem C4_witness :
    ((rank_articles protR [protArt1, protArt2] 20 1 0 0).map
      (fun ra => ra.article.link)).Nodup :=
  C4_links_nodup protR [protArt1, protArt2] 20 1 0 0 (by decide)

/-- C5 counterexample.  With a pre-rank bonus, a non-protected article
(raw score 100, bonus 4) outranks a protected article (floored at 100)
and is placed before it: the output does not place all protected
articles first. -/
theorem C5_counterexample :
    isProtectedPos bonusedArt.pre_rank_position 1 = false ∧
    rank_articles bigR [protSmall, bonusedArt] 20 1 1 5 =
      [{ article := bonusedArt, relevance_score := 104, isProtected := false },
       { article := protSmall, relevance_score := 100, isProtected := true }] := by
  refine ⟨by decide, by decide⟩

/-- C5 amended.  The output of `rank_articles` is always sorted
descending by final score; with `prerank_bonus_max = 0` (where no
bonused non-protected score can exceed the protected floor of 100) all
protected articles precede all non-protected ones; and the sort is
stable, so on the two tied articles `[x, y]` with `top_n = 1` the sole
output is `x`.  With a positive bonus the protected-first property can
fail, as the counterexample shows. -/
theorem C5_order_amended :
    (∀ (r : ArticleRanker) (articles : List Article) (top_n : Nat) (min_score : Int)
       (protected_count : Nat) (prerank_bonus_max : Int),
       (rank_articles r articles top_n min_score protected_count
         prerank_bonus_max).Pairwise scoreGE) ∧
    (∀ (r : ArticleRanker) (articles : List Article) (top_n : Nat) (min_score : Int)
       (protected_count : Nat),
       (rank_articles r articles top_n min_score protected_count 0).Pairwise
         (fun x y => y.isProtected = true → x.isProtected = true)) ∧
    rank_articles protR [tieX, tieY] 1 1 0 0 =
      [{ article := tieX, relevance_score := 10, isProtected := false }] := by
  refine ⟨?_, ?_, by decide⟩
  · intro r arts n ms pc bm
    simp only [rank_articles]
    exact List.Pairwise.sublist (List.take_sublist n _)
      (List.sorted_insertionSort scoreGE _)
  · intro r arts n ms pc
    simp only [rank_articles]
    have hAfacts : ∀ x ∈ (List.filter (fun x => x.1)
        (arts.filterMap (rankStep r ms pc 0))).map (fun x => x.2),
        x.relevance_score = 100 ∧ x.isProtected = true := by
      intro x hx
      obtain ⟨pair, hpair, hpe⟩ := List.mem_map.mp hx
      have hflag : pair.1 = true := by simpa using List.of_mem_filter hpair
      obtain ⟨a, _, hstep⟩ := List.mem_filterMap.mp (List.mem_of_mem_filter hpair)
      have hstep2 : rankStep r ms pc 0 a = some (true, x) := by
        rw [hstep, ← hpe, ← hflag]
      have hx_eq := rankStep_true_eq hstep2
      constructor
      · rw [hx_eq]
        show max (score_article r a + bonusFor 0 a.pre_rank_position) 100 = 100
        rw [bonusFor_zero, add_zero]
        exact max_eq_right (score_article_le r a)
      · rw [hx_eq]
    have hBfacts : ∀ y ∈ (List.filter (fun x => !x.1)
        (arts.filterMap (rankStep r ms pc 0))).map (fun x => x.2),
        y.relevance_score ≤ 100 ∧ y.isProtected = false := by
      intro y hy
      obtain ⟨pair, hpair, hpe⟩ := List.mem_map.mp hy
      have hflag : pair.1 = false := by simpa using List.of_mem_filter hpair
      obtain ⟨a, _, hstep⟩ := List.mem_filterMap.mp (List.mem_of_mem_filter hpair)
      have hstep2 : rankStep r ms pc 0 a = some (false, y) := by
        rw [hstep, ← hpe, ← hflag]
      have hy_eq := rankStep_false_eq hstep2
      constructor
      · rw [hy_eq]
        show score_article r a + bonusFor 0 a.pre_rank_position ≤ 100
        rw [bonusFor_zero, add_zero]
        exact score_article_le r a
      · rw [hy_eq]
    have hcond : ∀ x ∈ (List.filter (fun x => x.1)
        (arts.filterMap (rankStep r ms pc 0))).map (fun x => x.2),
        ∀ y ∈ (List.filter (fun x => x.1)
          (arts.filterMap (rankStep r ms pc 0))).map (fun x => x.2) ++
          (List.filter (fun x => !x.1)
            (arts.filterMap (rankStep r ms pc 0))).map (fun x => x.2),
        scoreGE x y := by
      intro x hx y hy
      have hx100 := (hAfacts x hx).1
      show y.relevance_score ≤ x.relevance_score
      rcases List.mem_append.mp hy with hl | hr
      · rw [hx100, (hAfacts y hl).1]
      · rw [hx100]
        exact (hBfacts y hr).1
    rw [insertionSort_append_left hcond]
    refine List.Pairwise.sublist (List.take_sublist n _) ?_
    rw [List.pairwise_append]
    refine ⟨?_, ?_, ?_⟩
    · exact List.pairwise_of_forall_mem_list
        (fun x hx _ _ _ => (hAfacts x hx).2)
    · refine List.pairwise_of_forall_mem_list (fun x hx y hy hyp => ?_)
      have := (hBfacts y ((List.mem_insertionSort scoreGE).mp hy)).2
      rw [this] at hyp
      exact absurd hyp (by simp)
    · intro x hx y _
      intro _
      exact (hAfacts x hx).2

/-- C6.  Bonus decay: any non-excluded kept article carrying a (1-based)
`pre_rank_position` has `max(0, prerank_bonus_max - position + 1)` added
to its score — before the protection floor for protected articles — and
with `prerank_bonus_max = 5` the bonus is 5 at position 1, 1 at
position 5, and 0 at position 6 or later. -/
theorem C6_bonus_decay :
    (∀ (r : ArticleRanker) (min_score : Int) (protected_count : Nat)
       (prerank_bonus_max : Int) (a : Article) (ra : RankedArticle) (p : Nat),
       a.pre_rank_position = some p → 1 ≤ p →
       rankStep r min_score protected_count prerank_bonus_max a = some (false, ra) →
       ra.relevance_score =
         score_article r a + max 0 (prerank_bonus_max - (p : Int) + 1)) ∧
    (∀ (r : ArticleRanker) (min_score : Int) (protected_count : Nat)
       (prerank_bonus_max : Int) (a : Article) (ra : RankedArticle) (p : Nat),
       a.pre_rank_position = some p → 1 ≤ p →
       rankStep r min_score protected_count prerank_bonus_max a = some (true, ra) →
       ra.relevance_score =
         max (score_article r a + max 0 (prerank_bonus_max - (p : Int) + 1)) 100) ∧
    bonusFor 5 (some 1) = 5 ∧ bonusFor 5 (some 5) = 1 ∧
    bonusFor 5 (some 6) = 0 ∧ bonusFor 5 (some 7) = 0 := by
  refine ⟨?_, ?_, by decide, by decide, by decide, by decide⟩
  · intro r ms pc bm a ra p hpre hp hstep
    rw [rankStep_false_eq hstep]
    show score_article r a + bonusFor bm a.pre_rank_position = _
    rw [hpre, bonusFor_eq_of_pos hp]
  · intro r ms pc bm a ra p hpre hp hstep
    rw [rankStep_true_eq hstep]
    show max (score_article r a + bonusFor bm a.pre_rank_position) 100 = _
    rw [hpre, bonusFor_eq_of_pos hp]

/-- Witness for C6: position 1 with `prerank_bonus_max = 5` receives
bonus 5 on top of its score of 10. -/
theorem C6_witness :
    rankStep protR 1 0 5 protArt1 =
      some (false,
        { article := protArt1, relevance_score := 15, isProtected := false }) ∧
    ({ article := protArt1, relevance_score := 15, isProtected := false } :
        RankedArticle).relevance_score =
      score_article protR protArt1 + max 0 (5 - (1 : Int) + 1) :=
  ⟨by decide, C6_bonus_decay.1 protR 1 0 5 protArt1 _ 1 rfl (by decide) (by decide)⟩

/-- C7.  Keyword matching semantics: at most one count per keyword
regardless of the number of occurrences; a single-word keyword matches
only at word boundaries; a keyword containing a space matches by plain
substring containment; matching is case-insensitive through the
lowercase normalization of keywords and text surface. -/
theorem C7_matching_semantics :
    (∀ (text : Str) (keywords : List Str),
       count_keyword_matches text keywords ≤ keywords.length) ∧
    count_keyword_matches ("run the run and run".data) ["run".data] = 1 ∧
    keywordHits ("r".data) ("running is great".data) = false ∧
    keywordHits ("r".data) ("the r language".data) = true ∧
    keywordHits ("r programming".data) (strLower ("I love R Programming daily".data)) = true ∧
    keywordHits ("b c".data) ("ab cd".data) = true ∧
    score_article (mkRanker ["R Programming".data] [] [] [])
      { title := "Learn r PROGRAMMING now".data } = 10 := by
  refine ⟨fun text kws => List.length_filter_le _ _, by decide, by decide, by decide,
    by decide, by decide, by decide⟩

/-- C8 counterexample.  The empty keyword is not ignored: as an
exclusion it is a substring of every text and excludes every article
(the kettlebell article scores 10 without it, 0 with it), and as a
high-priority keyword its two-boundary pattern matches any text with a
word character, contributing the tier weight 10. -/
theorem C8_counterexample :
    score_article noExR kbArt = 10 ∧
    score_article emptyExR kbArt = 0 ∧
    check_exclusions emptyExR (get_searchable_text kbArt) = true ∧
    score_article emptyKwR helloArt = 10 := by
  refine ⟨by decide, by decide, by decide, by decide⟩

/-- C8 amended.  An empty keyword string never raises an error, but it
is not ignored: as a substring needle it is contained in every text, so
an empty exclusion keyword makes `score_article` return 0 on every
article; under the word-boundary search it matches exactly the texts
containing at least one word character, so an empty tier keyword
contributes its tier weight on any such text. -/
theorem C8_empty_keyword_amended :
    (∀ text : Str, containsSubstr [] text = true) ∧
    (∀ text : Str, reSearchWord [] text = text.any isWordChar) ∧
    (∀ (r : ArticleRanker) (a : Article),
       [] ∈ r.exclusions → score_article r a = 0) := by
  refine ⟨containsSubstr_nil, ?_, ?_⟩
  · intro text
    have h := wordSearchAux_nil none text
    simpa [reSearchWord, isWordCharOpt] using h
  · intro r a hmem
    have hx : check_exclusions r (get_searchable_text a) = true := by
      unfold check_exclusions
      exact List.any_eq_true.mpr ⟨[], hmem, containsSubstr_nil _⟩
    simp only [score_article]
    rw [if_pos hx]

/-- Witness for C8: the ranker with the empty exclusion zeroes the
kettlebell article. -/
theorem C8_witness :
    ([] ∈ emptyExR.exclusions) ∧ score_article emptyExR kbArt = 0 :=
  ⟨by decide, C8_empty_keyword_amended.2.2 emptyExR kbArt (by decide)⟩

/-- C9 counterexample.  A non-excluded article that matches no keyword
scores 0 and is dropped by the pre-rank pass even with `min_score = 0`:
the `score == 0` branch of the loop discards it before the `min_score`
comparison is ever reached. -/
theorem C9_counterexample :
    check_exclusions protR (get_searchable_text zeroArt) = false ∧
    score_article protR zeroArt = 0 ∧
    rank_articles protR [zeroArt] 35 0 0 0 = [] := by
  refine ⟨by decide, by decide, by decide⟩

/-- C9 amended.  In the pre-rank configuration (`min_score = 0`,
`protected_count = 0`, `prerank_bonus_max = 0`) an article is kept iff
its score is nonzero, i.e. at least 1: articles scoring 0 are always
dropped, whether excluded or merely matching no keyword; every survivor
carries a score of at least 1. -/
theorem C9_pass1_amended :
    (∀ (r : ArticleRanker) (a : Article),
       rankStep r 0 0 0 a =
         if score_article r a = 0 then none
         else some (false,
           { article := a, relevance_score := score_article r a,
             isProtected := false })) ∧
    (∀ (r : ArticleRanker) (articles : List Article) (top_n : Nat)
       (ra : RankedArticle),
       ra ∈ rank_articles r articles top_n 0 0 0 → 1 ≤ ra.relevance_score) := by
  have h1 : ∀ (r : ArticleRanker) (a : Article),
      rankStep r 0 0 0 a =
        if score_article r a = 0 then none
        else some (false,
          { article := a, relevance_score := score_article r a,
            isProtected := false }) := by
    intro r a
    simp only [rankStep, bonusFor_zero, add_zero, isProtectedPos_zero,
      Bool.false_eq_true, if_false]
    split
    · rfl
    · exact if_pos (score_article_nonneg r a)
  refine ⟨h1, ?_⟩
  intro r arts n ra hmem
  obtain ⟨a, _, b, hstep⟩ := mem_rank_articles hmem
  rw [h1 r a] at hstep
  by_cases h : score_article r a = 0
  · rw [if_pos h] at hstep
    exact absurd hstep (by simp)
  · rw [if_neg h] at hstep
    obtain ⟨_, hra⟩ := Prod.mk.injEq .. ▸ Option.some.injEq .. ▸ hstep
    rw [← hra]
    show 1 ≤ score_article r a
    have h0 := score_article_nonneg r a
    omega

/-- Witness for C9: a score-10 article survives pass 1 with a score of
at least 1. -/
theorem C9_witness :
    (({ article := tieX, relevance_score := 10, isProtected := false } :
        RankedArticle) ∈ rank_articles protR [tieX] 35 0 0 0) ∧
    (1 : Int) ≤
      ({ article := tieX, relevance_score := 10, isProtected := false } :
        RankedArticle).relevance_score :=
  ⟨by decide, C9_pass1_amended.2 protR [tieX] 35 _ (by decide)⟩

/-- C10.  Scoring is a pure read of the article: in this embedding
`score_article` is a function of the ranker configuration and the
article record alone (so two calls agree by construction), it always
returns an integer in [0, 100], and it adds no decoration — the
`relevance_score` / protected decoration exists only on the
`RankedArticle` wrapper built inside `rank_articles`, whose entries
carry their input article verbatim. -/
theorem C10_score_range_pure :
    (∀ (r : ArticleRanker) (a : Article),
       0 ≤ score_article r a ∧ score_article r a ≤ 100) ∧
    (∀ (r : ArticleRanker) (articles : List Article) (top_n : Nat) (min_score : Int)
       (protected_count : Nat) (prerank_bonus_max : Int) (ra : RankedArticle),
       ra ∈ rank_articles r articles top_n min_score protected_count prerank_bonus_max →
       ra.article ∈ articles) := by
  refine ⟨fun r a => ⟨score_article_nonneg r a, score_article_le r a⟩, ?_⟩
  intro r arts n ms pc bm ra hmem
  obtain ⟨a, ha, b, hstep⟩ := mem_rank_articles hmem
  rw [(rankStep_eq_some hstep).1]
  exact ha

/-- Witness for C10: score range and article preservation at a concrete
input. -/
theorem C10_witness :
    (0 ≤ score_article protR tieY ∧ score_article protR tieY ≤ 100) ∧
    ({ article := tieY, relevance_score := 10, isProtected := false } :
        RankedArticle).article ∈ [tieY] :=
  ⟨C10_score_range_pure.1 protR tieY,
   C10_score_range_pure.2 protR [tieY] 20 1 0 0 _ (by decide)⟩
